import Mathlib

/-
Verification of the schema-reconciliation and entity-merging engine of
CodeVerse-AISF (src/src/lib/gemini.ts, with the variant implementation that
also ships in the repository as an unnamed file).

The JavaScript code is shallowly embedded: JS objects become insertion-ordered
association lists, JS `Map` becomes the same structure, JS numbers are modelled
as integers plus a distinguished NaN (no claim depends on fractional values),
and the ECMAScript library primitives `new Date`, `parseFloat` and `parseInt`
are threaded as explicit parameters (`JSPrims`), since their parsing grammars
are library behaviour, not repository code.
-/

/-- Decimal digits of a natural number, most significant first.  Fuel-indexed
structural recursion so that it reduces definitionally; fuel `n+1` always
suffices. -/
def natDigitsAux : Nat → Nat → List Char
  | 0, _ => []
  | fuel + 1, n =>
    if n < 10 then [Char.ofNat (48 + n)]
    else natDigitsAux fuel (n / 10) ++ [Char.ofNat (48 + n % 10)]

/-- Decimal string of a natural number (JS `String(n)` for naturals). -/
def natStr (n : Nat) : String :=
  String.mk (natDigitsAux (n + 1) n)

/-- Decimal string of an integer (JS `String(n)` for integral numbers). -/
def intStr (i : Int) : String :=
  if i < 0 then "-" ++ natStr i.natAbs else natStr i.natAbs

/-- A JS value as it occurs in a spreadsheet row: null, boolean, number
(integral; fractional doubles are outside the model), NaN, or string.
JS `undefined` is modelled by the absence of a key (`Option.none`). -/
inductive Value where
  | vNull
  | vBool (b : Bool)
  | vNum (n : Int)
  | vNaN
  | vStr (s : String)
deriving DecidableEq, Repr

open Value

/-- The ubiquitous source check `v !== null && v !== undefined && v !== ''`
(the `undefined` disjunct is handled by the `Option` layer at call sites). -/
def isUsable : Value → Bool
  | vNull => false
  | vStr s => !(s == "")
  | _ => true

/-- JS `typeof value === 'number' && !isNaN(value)`. -/
def isNumNotNaN : Value → Bool
  | vNum _ => true
  | _ => false

/-- JS truthiness of a value (used by `if (primaryKey && cleanRow[primaryKey])`). -/
def truthy : Value → Bool
  | vNull => false
  | vBool b => b
  | vNum n => !(n == 0)
  | vNaN => false
  | vStr s => !(s == "")

/-- JS `String(value)`. -/
def jsString : Value → String
  | vNull => "null"
  | vBool b => if b then "true" else "false"
  | vNum n => intStr n
  | vNaN => "NaN"
  | vStr s => s

/-- A JS object with string keys: an insertion-ordered association list. -/
abbrev Row := List (String × Value)

/-- Property read `m[k]`; `none` models `undefined`. -/
def assocGet {α : Type} (m : List (String × α)) (k : String) : Option α :=
  (m.find? (fun p => p.1 == k)).map (·.2)

/-- Property write `m[k] = v` (also JS `Map.set`): an existing key keeps its
position, a new key is appended. -/
def assocSet {α : Type} : List (String × α) → String → α → List (String × α)
  | [], k, v => [(k, v)]
  | (k', v') :: m, k, v =>
    if k' == k then (k, v) :: m else (k', v') :: assocSet m k v

/-- JS `delete m[k]`. -/
def assocDel {α : Type} (m : List (String × α)) (k : String) : List (String × α) :=
  m.filter (fun p => !(p.1 == k))

/-- JS `new Set(l)` insertion-order deduplication (first occurrence kept). -/
def setDedup {α : Type} [DecidableEq α] (l : List α) : List α :=
  l.foldl (fun acc x => if x ∈ acc then acc else acc ++ [x]) []

/-- JS `s.includes(pat)`. -/
def strContains (s pat : String) : Bool :=
  s.data.tails.any (fun t => pat.data.isPrefixOf t)

/-- JS `s.toLowerCase()` (ASCII). -/
def jsToLower (s : String) : String :=
  String.mk (s.data.map Char.toLower)

/-- JS `Array.prototype.join(sep)`. -/
def joinSep (sep : String) : List String → String
  | [] => ""
  | [s] => s
  | s :: rest => s ++ sep ++ joinSep sep rest

/-- One sheet of uploaded data (`ConsolidatedData` in the source). -/
structure Sheet where
  fileName : String
  sheetName : String
  rowCount : Nat
  columnCount : Nat
  data : List Row
deriving DecidableEq, Repr

/-- A calendar date-time as produced by a successful `new Date(value)`. -/
structure JSDate where
  year : Nat
  month : Nat
  day : Nat
  hour : Nat
  minute : Nat
  second : Nat
deriving DecidableEq, Repr

/-- ECMAScript library primitives used by the engine, threaded explicitly:
`parseDate v` models `new Date(v)` (`none` = Invalid Date), `parseFloatFn`
models `parseFloat` (`none` = NaN), `parseIntFn` models `parseInt`
(`none` = NaN).  Their parsing grammars are ECMAScript library behaviour,
not repository code. -/
structure JSPrims where
  parseDate : Value → Option JSDate
  parseFloatFn : String → Option Int
  parseIntFn : String → Option Int

def pad2 (n : Nat) : String :=
  if n < 10 then "0" ++ natStr n else natStr n

def pad4 (n : Nat) : String :=
  if n < 10 then "000" ++ natStr n
  else if n < 100 then "00" ++ natStr n
  else if n < 1000 then "0" ++ natStr n
  else natStr n

/-- `date.toISOString().split('T')[0]`: the calendar-date part, `YYYY-MM-DD`. -/
def isoDatePart (d : JSDate) : String :=
  pad4 d.year ++ "-" ++ pad2 d.month ++ "-" ++ pad2 d.day

/- ===== Levenshtein distance (gemini.ts `levenshteinDistance`) =====
The source builds the full DP matrix row by row; we keep only the previous
row.  `levRowAux` computes the cells `matrix[i][1..n]` of one row given the
previous row and the left neighbour, exactly with the source's recurrence. -/

def levRowAux (c2 : Char) : List Char → List Nat → Nat → List Nat
  | c1 :: s1, diag :: up :: prevRest, left =>
    let cell :=
      if c2 = c1 then diag
      else Nat.min (diag + 1) (Nat.min (left + 1) (up + 1))
    cell :: levRowAux c2 s1 (up :: prevRest) cell
  | _, _, _ => []

/-- Row `i` of the matrix: `matrix[i][0] = i`, then the recurrence cells. -/
def levRow (c2 : Char) (s1 : List Char) (prev : List Nat) (i : Nat) : List Nat :=
  i :: levRowAux c2 s1 prev i

/-- `levenshteinDistance(str1, str2)` from the source: DP over
`matrix[0][j] = j`, `matrix[i][0] = i`, comparing `str2.charAt(i-1)` with
`str1.charAt(j-1)`; result `matrix[str2.length][str1.length]`. -/
def levenshteinDistance (str1 str2 : String) : Nat :=
  let s1 := str1.data
  let row0 := List.range (s1.length + 1)
  let final :=
    (str2.data.foldl
      (fun st c2 => (levRow c2 s1 st.1 (st.2 + 1), st.2 + 1)) (row0, 0)).1
  final.getLast?.getD 0

/-- Classic recursive Levenshtein distance with unit costs (the textbook
specification, peeling first characters).  Reference definition used to
verify the DP implementation. -/
def levRec : List Char → List Char → Nat
  | [], ys => ys.length
  | x :: xs, [] => (x :: xs).length
  | x :: xs, y :: ys =>
    if x = y then levRec xs ys
    else 1 + Nat.min (levRec xs ys) (Nat.min (levRec (x :: xs) ys) (levRec xs (y :: ys)))
termination_by xs ys => xs.length + ys.length
decreasing_by
  all_goals simp [List.length_cons]
  all_goals omega

/-- The list of prefixes of a list, shortest first. -/
def prefixesCh : List Char → List (List Char)
  | [] => [[]]
  | c :: cs => [] :: (prefixesCh cs).map (c :: ·)

/-- The DP row reached after consuming (reversed) `ys` of the second string:
entry `j` is the classic distance between the reversed `j`-prefix of `s1`
(prefixed by the already-consumed `p`) and `ys`. -/
def windowRow (ys p : List Char) (s1 : List Char) : List Nat :=
  (prefixesCh s1).map (fun q => levRec (p ++ q).reverse ys)

/- ===== Similarity scorer (gemini.ts `calculateSimilarity`) ===== -/

/-- The fixed business synonym table from `calculateSimilarity`. -/
def synonymGroups : List (List String) :=
  [["name", "title", "label"],
   ["id", "identifier", "key", "code"],
   ["customer", "client", "user"],
   ["amount", "price", "cost", "value"],
   ["date", "time", "timestamp"],
   ["phone", "mobile", "telephone"],
   ["email", "mail", "e-mail"],
   ["address", "location", "addr"]]

/-- `calculateSimilarity(str1, str2)`: synonym short-circuit on the raw
inputs, else `(longer.length - distance) / longer.length` with
`distance = levenshteinDistance(longer, shorter)`; `1.0` when the longer
string is empty.  Note: the function itself does NOT lower-case. -/
def calculateSimilarity (str1 str2 : String) : Rat :=
  if synonymGroups.any (fun g => g.contains str1 && g.contains str2) then 1
  else
    let longer := if str1.length > str2.length then str1 else str2
    let shorter := if str1.length > str2.length then str2 else str1
    if longer.length = 0 then 1
    else ((longer.length : Rat) - (levenshteinDistance longer shorter : Rat)) / (longer.length : Rat)

/-- `findSimilarColumns(columns)`: for each column, the other columns whose
lower-cased similarity exceeds 0.6 (the lower-casing happens HERE, in the
caller, not in `calculateSimilarity`). -/
def findSimilarColumns (columns : List String) : List (String × List String) :=
  columns.foldl
    (fun similarGroups col1 =>
      let similar := columns.filter
        (fun col2 => !(col1 == col2) && decide (calculateSimilarity (jsToLower col1) (jsToLower col2) > 3/5))
      if similar.length > 0 then assocSet similarGroups col1 similar else similarGroups)
    []

/- ===== Column normalization (gemini.ts `createBusinessColumnName`) ===== -/

/-- Collapse every maximal run of whitespace to a single space
(`.replace(/\s+/g, ' ')`). -/
def collapseWs (l : List Char) : List Char :=
  l.foldr
    (fun c acc =>
      if c.isWhitespace then
        match acc with
        | ' ' :: _ => acc
        | _ => ' ' :: acc
      else c :: acc)
    []

/-- JS `.trim()` on a character list. -/
def trimWs (l : List Char) : List Char :=
  ((l.dropWhile Char.isWhitespace).reverse.dropWhile Char.isWhitespace).reverse

/-- JS `s.trim()`. -/
def jsTrim (s : String) : String :=
  String.mk (trimWs s.data)

/-- `.replace(/\b\w/g, l => l.toUpperCase())`: upper-case every word
character that follows a non-word character (or starts the string). -/
def titleCaseAux : Bool → List Char → List Char
  | _, [] => []
  | prevW, c :: cs =>
    let isW := c.isAlphanum || c == '_'
    let c' := if isW && !prevW then c.toUpper else c
    c' :: titleCaseAux isW cs

/-- `createBusinessColumnName(columnName)` from gemini.ts: strip characters
outside `[a-zA-Z0-9\s]`, collapse whitespace, trim, then title-case at word
boundaries. -/
def createBusinessColumnName (columnName : String) : String :=
  String.mk (titleCaseAux false
    (trimWs (collapseWs (columnName.data.filter (fun c => c.isAlphanum || c.isWhitespace)))))

/- ===== Primary-key detectors ===== -/

/-- The candidate map built by the first phase of `detectSmartPrimaryKey`:
for every header of every sheet (headers read from the first row), keyed by
the normalized (business) column name, the maximum naming score and the
maximum per-sheet uniqueness (unique non-empty values / non-empty values). -/
def smartCandidates (data : List Sheet) : List (String × Nat × Rat) :=
  data.foldl
    (fun candidateKeys sheet =>
      match sheet.data with
      | [] => candidateKeys
      | firstRow :: _ =>
        (firstRow.map (·.1)).foldl
          (fun candidateKeys header =>
            let normalizedHeader := createBusinessColumnName header
            let lowerHeader := jsToLower header
            let score : Nat :=
              (if strContains lowerHeader "id" then 15 else 0)
              + (if strContains lowerHeader "key" then 12 else 0)
              + (if strContains lowerHeader "code" then 10 else 0)
              + (if strContains lowerHeader "name" && !strContains lowerHeader "filename" then 8 else 0)
              + (if strContains lowerHeader "reference" || strContains lowerHeader "ref" then 7 else 0)
              + (if strContains lowerHeader "number" then 5 else 0)
            let values := (sheet.data.map (fun row => assocGet row header)).filterMap
              (fun o => match o with
                | some v => if isUsable v then some v else none
                | none => none)
            let uniqueValues := setDedup values
            let uniqueness : Rat :=
              if values.length > 0 then (uniqueValues.length : Rat) / (values.length : Rat) else 0
            let existing := (assocGet candidateKeys normalizedHeader).getD (0, 0)
            assocSet candidateKeys normalizedHeader
              (Nat.max existing.1 score, max existing.2 uniqueness))
          candidateKeys)
    []

/-- The selection loop of `detectSmartPrimaryKey`: keep the first candidate
whose combined score `score + uniqueness * 20` strictly exceeds the best so
far, among candidates with uniqueness > 0.7. -/
def selectBest : List (String × Nat × Rat) → Option String × Rat → Option String × Rat
  | [], best => best
  | (key, score, uniqueness) :: rest, (bestKey, bestScore) =>
    let totalScore : Rat := (score : Rat) + uniqueness * 20
    if totalScore > bestScore ∧ uniqueness > 7/10 then
      selectBest rest (some key, totalScore)
    else
      selectBest rest (bestKey, bestScore)

/-- `detectSmartPrimaryKey(data)` from gemini.ts: the primary-key column
used by `createHorizontalMerge` as the merge identifier. -/
def detectSmartPrimaryKey (data : List Sheet) : Option String :=
  (selectBest (smartCandidates data) (none, 0)).1

/-- `findBestPrimaryKey(data)` from gemini.ts: the DIFFERENT detector whose
result is reported as `primaryKey` in the fallback analysis.  Naming scores
are additive across sheets (id +10, key +8, code +6, number +4,
reference/ref +5), uniqueness is `unique non-empty values / all rows`
(maximum across sheets), eligibility needs uniqueness > 0.8 and the combined
score is `nameScore + uniqueness * 10`. -/
def findBestPrimaryKey (data : List Sheet) : Option String :=
  if data.length == 0 then none
  else
    let maps := data.foldl
      (fun (maps : List (String × Nat) × List (String × Rat)) sheet =>
        match sheet.data with
        | [] => maps
        | firstRow :: _ =>
          (firstRow.map (·.1)).foldl
            (fun (maps : List (String × Nat) × List (String × Rat)) header =>
              let candidateColumns := maps.1
              let uniquenessScores := maps.2
              let lowerHeader := jsToLower header
              let score : Nat :=
                (if strContains lowerHeader "id" then 10 else 0)
                + (if strContains lowerHeader "key" then 8 else 0)
                + (if strContains lowerHeader "code" then 6 else 0)
                + (if strContains lowerHeader "number" then 4 else 0)
                + (if strContains lowerHeader "reference" || strContains lowerHeader "ref" then 5 else 0)
              let candidateColumns :=
                assocSet candidateColumns header ((assocGet candidateColumns header).getD 0 + score)
              let values := sheet.data.map (fun row => assocGet row header)
              let uniqueValues := setDedup (values.filterMap
                (fun o => match o with
                  | some v => if isUsable v then some v else none
                  | none => none))
              let uniqRat : Rat := (uniqueValues.length : Rat) / (values.length : Rat)
              let uniquenessScores :=
                assocSet uniquenessScores header (max ((assocGet uniquenessScores header).getD 0) uniqRat)
              (candidateColumns, uniquenessScores))
            maps)
      ([], [])
    (maps.1.foldl
      (fun (best : Option String × Rat) kv =>
        let uniquenessScore := (assocGet maps.2 kv.1).getD 0
        let totalScore : Rat := (kv.2 : Rat) + uniquenessScore * 10
        if totalScore > best.2 ∧ uniquenessScore > 4/5 then (some kv.1, totalScore) else best)
      (none, 0)).1

/- ===== Value normalization (gemini.ts `normalizeBusinessValue`) ===== -/

/-- `String(value).replace(/[$,\s]/g, '')`. -/
def stripCurrencyChars (s : String) : String :=
  String.mk (s.data.filter (fun c => !(c == '$' || c == ',' || c.isWhitespace)))

/-- `normalizeBusinessValue(value, columnName)` from gemini.ts.  Null-ish
values become null; date-named columns get the ISO calendar date on parse
success and the ORIGINAL value (untrimmed) on failure; amount-named columns
are parsed as floats, quantity-named columns as integers; remaining strings
are trimmed; everything else passes through. -/
def normalizeBusinessValue (prims : JSPrims) (value : Value) (columnName : String) : Value :=
  if value = vNull ∨ value = vStr "" then vNull
  else
    let colLower := jsToLower columnName
    if strContains colLower "date" || strContains colLower "time"
        || strContains colLower "created" || strContains colLower "updated" then
      match prims.parseDate value with
      | some d => vStr (isoDatePart d)
      | none => value
    else if strContains colLower "amount" || strContains colLower "price"
        || strContains colLower "cost" || strContains colLower "total" then
      match prims.parseFloatFn (stripCurrencyChars (jsString value)) with
      | some n => vNum n
      | none => value
    else if strContains colLower "quantity" || strContains colLower "qty"
        || strContains colLower "count" then
      match prims.parseIntFn (jsString value) with
      | some n => vNum n
      | none => value
    else
      match value with
      | vStr s => vStr (jsTrim s)
      | v => v

/- ===== Entity merging (gemini.ts `createCompositeKey`,
`mergeEntityAttributes`, `createHorizontalMerge`) ===== -/

/-- Priority order for the composite key. -/
def fieldPriority : List String := ["Name", "ID", "Code", "Title", "Email", "Phone"]

/-- `createCompositeKey(row)` from gemini.ts.  `fallbackKey` stands for the
nondeterministic `entity_${Date.now()}_${random}` string produced when the
joined key is empty. -/
def createCompositeKey (fallbackKey : String) (row : Row) : String :=
  let identifyingFields := fieldPriority.foldl
    (fun acc field =>
      match assocGet row field with
      | some v => if isUsable v then acc ++ [jsString v] else acc
      | none => acc)
    []
  let identifyingFields :=
    if identifyingFields.isEmpty then
      row.foldl
        (fun acc kv =>
          if isUsable kv.2 && decide (acc.length < 3) then acc ++ [jsString kv.2] else acc)
        []
    else identifyingFields
  let joined := joinSep "|" identifyingFields
  if joined = "" then fallbackKey else joined

/-- One step of `mergeEntityAttributes`: merge a single `[key, value]` entry
of the new record into the accumulated entity, with the source's conflict
resolution. -/
def mergeStep (merged : Row) (kv : String × Value) : Row :=
  if isUsable kv.2 then
    match assocGet merged kv.1 with
    | none => assocSet merged kv.1 kv.2
    | some m =>
      if !(isUsable m) then assocSet merged kv.1 kv.2
      else if m ≠ kv.2 then
        match kv.2, m with
        | vStr s, vStr ms => if s.length > ms.length then assocSet merged kv.1 kv.2 else merged
        | _, _ => if isNumNotNaN kv.2 then assocSet merged kv.1 kv.2 else merged
      else merged
  else merged

/-- `mergeEntityAttributes(existing, newRow)` from gemini.ts: fold the new
record's entries into a copy of the existing entity. -/
def mergeEntityAttributes (existing newRow : Row) : Row :=
  newRow.foldl mergeStep existing

/-- The row-cleaning loop of `createHorizontalMerge`: normalize every value,
drop null/empty results, and key the survivors by the business column name. -/
def cleanRowOf (prims : JSPrims) (row : Row) : Row :=
  row.foldl
    (fun cleanRow kv =>
      let normalizedValue := normalizeBusinessValue prims kv.2 kv.1
      if isUsable normalizedValue then
        assocSet cleanRow (createBusinessColumnName kv.1) normalizedValue
      else cleanRow)
    []

/-- One row of `createHorizontalMerge`'s main loop.  The state is the entity
map (a JS `Map` in insertion order) and a row counter indexing the
nondeterministic fallback-key source `fb`. -/
def processRow (prims : JSPrims) (fb : Nat → String) (primaryKey : Option String)
    (st : List (String × Row) × Nat) (row : Row) : List (String × Row) × Nat :=
  let cleanRow := cleanRowOf prims row
  if cleanRow.isEmpty then (st.1, st.2 + 1)
  else
    let entityId :=
      match primaryKey with
      | some pk =>
        match assocGet cleanRow pk with
        | some v => if truthy v then jsString v else createCompositeKey (fb st.2) cleanRow
        | none => createCompositeKey (fb st.2) cleanRow
      | none => createCompositeKey (fb st.2) cleanRow
    let entityMap :=
      match assocGet st.1 entityId with
      | some existingEntity => assocSet st.1 entityId (mergeEntityAttributes existingEntity cleanRow)
      | none => assocSet st.1 entityId cleanRow
    (entityMap, st.2 + 1)

/-- `createHorizontalMerge(data)` from gemini.ts: detect the smart primary
key, fold every row of every sheet into the entity map, and return the
entities in first-seen order. -/
def createHorizontalMerge (prims : JSPrims) (fb : Nat → String) (data : List Sheet) : List Row :=
  let primaryKey := detectSmartPrimaryKey data
  ((data.foldl
      (fun st sheet => sheet.data.foldl (processRow prims fb primaryKey) st)
      ([], 0)).1).map (·.2)

/- ===== Strategy and orchestration ===== -/

/-- A cross-source relationship as produced by `findDataRelationship`; only
the `confidence` field is read by `determineConsolidationStrategy`, the
other fields (type, sheet names, common columns) are not consulted. -/
structure Relationship where
  confidence : Rat
deriving DecidableEq, Repr

/-- `determineConsolidationStrategy(dataAnalysis)` from gemini.ts.  Note:
in the live module this function is never called; the fallback analysis
hard-codes the string 'horizontal_merge' instead. -/
def determineConsolidationStrategy (commonColumns : List String)
    (relationships : List Relationship) (totalSheets : Nat) : String :=
  if (commonColumns.length : Rat) > (totalSheets : Rat) * (1/2) then "merge"
  else if relationships.length > 0 ∧ relationships.any (fun r => decide (r.confidence > 7/10)) then "lookup"
  else if commonColumns.length > 2 then "union"
  else "aggregate"

/-- `Object.keys(mergedData[0] || {})`. -/
def headKeys (mergedData : List Row) : List String :=
  match mergedData with
  | [] => []
  | firstRow :: _ => firstRow.map (·.1)

/-- The result record of `createIntelligentFallbackAnalysis` (masterWorkflow
fields inlined). -/
structure FallbackAnalysis where
  consolidationStrategy : String
  primaryKey : Option String
  mergeLogic : String
  columnExpansion : List String
  conflictResolution : String
  summary : String
  insights : List String
  recommendations : List String
  consolidatedHeaders : List String
  mergedData : List Row
deriving DecidableEq, Repr

/-- The record returned by `createIntelligentFallbackAnalysis`, as a function
of the input sheets and the already-computed merged data (the source binds
`mergedData` once and uses it in every field). -/
def fallbackAnalysisOf (data : List Sheet) (mergedData : List Row) : FallbackAnalysis :=
  { consolidationStrategy := "horizontal_merge"
    primaryKey := findBestPrimaryKey data
    mergeLogic := "Entities merged horizontally by primary key, expanding columns instead of duplicating rows"
    columnExpansion := setDedup ((mergedData.map (fun row => row.map (·.1))).flatten)
    conflictResolution := "Most complete value selected for conflicting attributes"
    summary := "Successfully consolidated " ++ natStr data.length
      ++ " Excel sources using horizontal merge strategy. Created " ++ natStr mergedData.length
      ++ " unique entity records with expanded attribute columns instead of duplicate rows. Total columns: "
      ++ natStr (headKeys mergedData).length
    insights :=
      ["Identified " ++ natStr mergedData.length ++ " unique entities across all sources",
       "Expanded to " ++ natStr (headKeys mergedData).length ++ " total attributes per entity",
       "Eliminated row duplication by merging attributes horizontally",
       "Applied intelligent conflict resolution for overlapping attributes"]
    recommendations :=
      ["Establish consistent primary key standards across all data sources",
       "Use the consolidated view for comprehensive entity analysis",
       "Consider data validation rules to prevent attribute conflicts",
       "Implement regular data quality checks for entity consistency"]
    consolidatedHeaders := headKeys mergedData
    mergedData := mergedData }

/-- `createIntelligentFallbackAnalysis(data)` from gemini.ts (the
`analyzeDataStructures` result it computes is never used by the live
version and is omitted). -/
def createIntelligentFallbackAnalysis (prims : JSPrims) (fb : Nat → String)
    (data : List Sheet) : FallbackAnalysis :=
  fallbackAnalysisOf data (createHorizontalMerge prims fb data)

/- ===== Enrichment validation (`validateAndEnhanceAnalysis`, live gemini.ts
version and the variant version elsewhere in the repository) ===== -/

/-- The parsed JSON object returned by the LLM enrichment call, as consumed
by `validateAndEnhanceAnalysis`.  A field that is absent or fails the
source's `Array.isArray`/shape check is `none`.  Non-array `masterWorkflow`
payloads (wrapped by the source as `[analysis.masterWorkflow || {}]`) are
outside the model and collapse to `none`. -/
structure EnrichmentOutput where
  masterWorkflow : Option (List Row)
  summary : Option String
  insights : Option (List String)
  recommendations : Option (List String)
  consolidatedHeaders : Option (List String)
  mergedData : Option (List Row)
deriving DecidableEq, Repr

/-- The `GeminiAnalysis` record produced by either validate function. -/
structure GeminiAnalysisOut where
  masterWorkflow : List Row
  summary : String
  insights : List String
  recommendations : List String
  consolidatedHeaders : List String
  mergedData : List Row
deriving DecidableEq, Repr

/-- `validateAndEnhanceAnalysis(analysis, data, dataAnalysis)` from the LIVE
gemini.ts: accept the enrichment's `mergedData` unchanged whenever it is a
non-empty array (NO key stripping), fall back to `createHorizontalMerge`
otherwise, and fill missing headers from the first merged record. -/
def validateAndEnhanceAnalysis (prims : JSPrims) (fb : Nat → String)
    (data : List Sheet) (analysis : EnrichmentOutput) : GeminiAnalysisOut :=
  let masterWorkflow := analysis.masterWorkflow.getD [[]]
  let summary :=
    match analysis.summary with
    | some s => if s = "" then "Horizontal merge consolidation completed" else s
    | none => "Horizontal merge consolidation completed"
  let insights := analysis.insights.getD []
  let recommendations := analysis.recommendations.getD []
  let consolidatedHeaders := analysis.consolidatedHeaders.getD []
  let mergedData :=
    match analysis.mergedData with
    | some l => if l.length > 0 then l else createHorizontalMerge prims fb data
    | none => createHorizontalMerge prims fb data
  let mergedData := if mergedData.length = 0 then createHorizontalMerge prims fb data else mergedData
  let consolidatedHeaders :=
    if consolidatedHeaders.length = 0 then
      if mergedData.length > 0 then headKeys mergedData else consolidatedHeaders
    else consolidatedHeaders
  { masterWorkflow := masterWorkflow
    summary := summary
    insights := insights
    recommendations := recommendations
    consolidatedHeaders := consolidatedHeaders
    mergedData := mergedData }

/-- The source-tracking keys deleted by the variant
`validateAndEnhanceAnalysis`, in the order of its `delete` statements. -/
def trackingKeys : List String :=
  ["Source File", "Source_File", "Source Sheet", "Source_Sheet",
   "Original Row", "Original_Row", "Data Quality Score", "Duplicate Flag"]

/-- The per-record cleanup of the variant `validateAndEnhanceAnalysis`:
`{...record}` followed by one `delete` per tracking key (exact key match). -/
def stripTrackingKeys (record : Row) : Row :=
  assocDel (assocDel (assocDel (assocDel (assocDel (assocDel (assocDel (assocDel
    record "Source File") "Source_File") "Source Sheet") "Source_Sheet")
    "Original Row") "Original_Row") "Data Quality Score") "Duplicate Flag"

/-- `validateAndEnhanceAnalysis` from the VARIANT implementation in the
repository (the unnamed gemini module): same shape checks, but every record
of the accepted `mergedData` is passed through `stripTrackingKeys`, and the
headers are recomputed from the first cleaned record.  `cleanMerged` stands
for the module's own deterministic fallback dataset
`createCleanMerge(data, createCleanColumnMapping(data, dataAnalysis),
dataAnalysis)`, whose construction the stripping invariant does not depend
on. -/
def validateAndEnhanceAnalysisV2 (cleanMerged : List Row)
    (analysis : EnrichmentOutput) : GeminiAnalysisOut :=
  let masterWorkflow := analysis.masterWorkflow.getD [[]]
  let summary :=
    match analysis.summary with
    | some s => if s = "" then "Business data consolidation completed" else s
    | none => "Business data consolidation completed"
  let insights := analysis.insights.getD []
  let recommendations := analysis.recommendations.getD []
  let consolidatedHeaders := analysis.consolidatedHeaders.getD []
  let mergedData :=
    match analysis.mergedData with
    | some l => if l.length > 0 then l else cleanMerged
    | none => cleanMerged
  let mergedData2 := if mergedData.length > 0 then mergedData.map stripTrackingKeys else mergedData
  let consolidatedHeaders :=
    if mergedData.length > 0 then
      if mergedData2.length > 0 then headKeys mergedData2 else consolidatedHeaders
    else consolidatedHeaders
  { masterWorkflow := masterWorkflow
    summary := summary
    insights := insights
    recommendations := recommendations
    consolidatedHeaders := consolidatedHeaders
    mergedData := mergedData2 }

/- ===== Specification-side definitions (used to state the claims) ===== -/

/-- Field-level conflict resolution as the specification describes it, as a
function of the existing entity's value at a key (`none` = key absent) and
the new record's value there: a usable new value is adopted when the
existing one is missing or null/empty; on a genuine conflict the strictly
longer string wins when both are strings, a non-NaN number from the new
record wins, and otherwise the existing value is kept. -/
def mergeResolveAt (e : Option Value) (n : Option Value) : Option Value :=
  match n with
  | none => e
  | some v =>
    if isUsable v then
      match e with
      | none => some v
      | some m =>
        if !(isUsable m) then some v
        else if m ≠ v then
          match v, m with
          | vStr s, vStr ms => if s.length > ms.length then some v else some m
          | _, _ => if isNumNotNaN v then some v else some m
        else some m
    else e

/-- The usable values of the priority fields present in a record, in the
fixed priority order. -/
def priorityVals (row : Row) : List String :=
  fieldPriority.filterMap
    (fun field =>
      match assocGet row field with
      | some v => if isUsable v then some (jsString v) else none
      | none => none)

/-- The first up to 3 usable values of a record in iteration order. -/
def firstThreeVals (row : Row) : List String :=
  ((row.filter (fun kv => isUsable kv.2)).map (fun kv => jsString kv.2)).take 3

/-- Composite-key synthesis as the amended claim describes it: join ALL
present priority-field values with `|`; only when no priority field is
present, join the first up to 3 usable values; when the join is empty,
use the nondeterministic fallback key. -/
def compositeKeyAmended (fallbackKey : String) (row : Row) : String :=
  let ids := if (priorityVals row).isEmpty then firstThreeVals row else priorityVals row
  let joined := joinSep "|" ids
  if joined = "" then fallbackKey else joined

/- ===== Concrete inputs used by witnesses and counterexamples ===== -/

/-- Trivial primitive pack: no value parses as a date or number (faithful to
the concrete values it is applied to below, none of which reach a parsing
branch or parse in JS). -/
def prims0 : JSPrims :=
  { parseDate := fun _ => none
    parseFloatFn := fun _ => none
    parseIntFn := fun _ => none }

/-- Primitive pack whose date parser always succeeds with 2024-01-05 10:30:00. -/
def prims8 : JSPrims :=
  { parseDate := fun _ => some ⟨2024, 1, 5, 10, 30, 0⟩
    parseFloatFn := fun _ => none
    parseIntFn := fun _ => none }

/-- A constant fallback-key source (the fallback branch is never reached on
the inputs below). -/
def fb0 : Nat → String := fun _ => "entity_fallback"

/-- One sheet with an `ID` column of uniqueness 3/4: eligible for
`detectSmartPrimaryKey` (threshold 0.7) but not for `findBestPrimaryKey`
(threshold 0.8). -/
def dataC4 : List Sheet :=
  [{ fileName := "a.xlsx", sheetName := "Sheet1", rowCount := 4, columnCount := 1,
     data := [[("ID", vStr "1")], [("ID", vStr "2")], [("ID", vStr "3")], [("ID", vStr "1")]] }]

/-- Two sheets with disjoint single columns `A` and `B`: the merged output
has two entities with different key sets. -/
def dataC3 : List Sheet :=
  [{ fileName := "a.xlsx", sheetName := "S1", rowCount := 1, columnCount := 1,
     data := [[("A", vStr "x")]] },
   { fileName := "b.xlsx", sheetName := "S2", rowCount := 1, columnCount := 1,
     data := [[("B", vStr "y")]] }]

/-- A minimal single-sheet input for the strategy counterexample. -/
def dataC7 : List Sheet :=
  [{ fileName := "a.xlsx", sheetName := "S1", rowCount := 1, columnCount := 1,
     data := [[("A", vStr "x")]] }]

/-- An enrichment output whose records carry a source-tracking key. -/
def enrichC10 : EnrichmentOutput :=
  { masterWorkflow := none
    summary := none
    insights := none
    recommendations := none
    consolidatedHeaders := some ["Name"]
    mergedData := some [[("Source File", vStr "a.xlsx"), ("Name", vStr "Jo")]] }

/- ===== Basic lemmas ===== -/

theorem str_eq_empty_iff (s : String) : s = "" ↔ s.data = [] := by
  constructor
  · intro h
    subst h
    rfl
  · intro h
    cases s with
    | mk cs =>
      have hc : cs = [] := h
      subst hc
      rfl

theorem natDigitsAux_ne_nil (fuel n : Nat) : natDigitsAux (fuel + 1) n ≠ [] := by
  unfold natDigitsAux
  split
  · simp
  · simp

theorem natStr_ne_empty (n : Nat) : natStr n ≠ "" := by
  intro h
  exact natDigitsAux_ne_nil n n (congrArg String.data h)

theorem str_append_ne_empty_right (a b : String) (h : b ≠ "") : a ++ b ≠ "" := by
  intro hab
  apply h
  have hd : (a ++ b).data = [] := (str_eq_empty_iff _).mp hab
  rw [String.data_append] at hd
  exact (str_eq_empty_iff _).mpr (List.append_eq_nil.mp hd).2

theorem intStr_ne_empty (i : Int) : intStr i ≠ "" := by
  unfold intStr
  split
  · exact str_append_ne_empty_right _ _ (natStr_ne_empty _)
  · exact natStr_ne_empty _

theorem jsString_ne_empty (v : Value) (h : isUsable v = true) : jsString v ≠ "" := by
  cases v with
  | vNull => simp [isUsable] at h
  | vBool b => cases b <;> simp [jsString]
  | vNum n => exact intStr_ne_empty n
  | vNaN => simp [jsString]
  | vStr s =>
    simp only [isUsable, Bool.not_eq_true', beq_eq_false_iff_ne, ne_eq] at h
    simpa [jsString] using h

theorem joinSep_cons_ne_empty (sep : String) (s : String) (t : List String) (h : s ≠ "") :
    joinSep sep (s :: t) ≠ "" := by
  cases t with
  | nil => simpa [joinSep] using h
  | cons a t' =>
    show s ++ sep ++ joinSep sep (a :: t') ≠ ""
    intro hab
    apply h
    have hd : (s ++ sep ++ joinSep sep (a :: t')).data = [] := (str_eq_empty_iff _).mp hab
    rw [String.data_append, String.data_append] at hd
    have h1 := (List.append_eq_nil.mp hd).1
    exact (str_eq_empty_iff _).mpr (List.append_eq_nil.mp h1).1

theorem assocGet_nil {α : Type} (k : String) : assocGet ([] : List (String × α)) k = none := rfl

theorem assocGet_cons {α : Type} (k' : String) (v' : α) (m : List (String × α)) (k : String) :
    assocGet ((k', v') :: m) k = if k' = k then some v' else assocGet m k := by
  by_cases h : k' = k
  · subst h
    simp [assocGet, List.find?]
  · have hb : (k' == k) = false := beq_eq_false_iff_ne.mpr h
    simp [assocGet, List.find?, hb, h]

theorem assocGet_set_self {α : Type} (m : List (String × α)) (k : String) (v : α) :
    assocGet (assocSet m k v) k = some v := by
  induction m with
  | nil => simp [assocSet, assocGet_cons]
  | cons hd tl ih =>
    obtain ⟨k', v'⟩ := hd
    by_cases h : k' = k
    · simp [assocSet, h, assocGet_cons]
    · simp [assocSet, h, assocGet_cons, ih]

theorem assocGet_set_ne {α : Type} (m : List (String × α)) (k k₀ : String) (v : α)
    (h : k₀ ≠ k) : assocGet (assocSet m k₀ v) k = assocGet m k := by
  induction m with
  | nil => simp [assocSet, assocGet_cons, assocGet_nil, h]
  | cons hd tl ih =>
    obtain ⟨k', v'⟩ := hd
    by_cases hk : k' = k₀
    · simp [assocSet, hk, assocGet_cons, h]
    · simp [assocSet, hk, assocGet_cons, ih]

theorem mem_assocSet {α : Type} (m : List (String × α)) (k : String) (v : α)
    (kv : String × α) (h : kv ∈ assocSet m k v) : kv ∈ m ∨ kv = (k, v) := by
  induction m with
  | nil =>
    simp [assocSet] at h
    exact Or.inr h
  | cons hd tl ih =>
    obtain ⟨k', v'⟩ := hd
    by_cases hk : k' = k
    · simp only [assocSet, hk, beq_self_eq_true, if_pos] at h
      rcases List.mem_cons.mp h with h | h
      · exact Or.inr h
      · exact Or.inl (List.mem_cons_of_mem _ h)
    · simp only [assocSet, beq_iff_eq, hk, if_neg, not_false_iff] at h
      rcases List.mem_cons.mp h with h | h
      · exact Or.inl (by simp [h])
      · rcases ih h with h' | h'
        · exact Or.inl (List.mem_cons_of_mem _ h')
        · exact Or.inr h'

theorem assocGet_some_mem {α : Type} (m : List (String × α)) (k : String) (v : α)
    (h : assocGet m k = some v) : (k, v) ∈ m := by
  induction m with
  | nil => simp [assocGet_nil] at h
  | cons hd tl ih =>
    obtain ⟨k', v'⟩ := hd
    rw [assocGet_cons] at h
    by_cases hk : k' = k
    · simp [hk] at h
      simp [hk, h]
    · simp [hk] at h
      exact List.mem_cons_of_mem _ (ih h)

theorem assocGet_eq_none_of_not_mem_keys {α : Type} (m : List (String × α)) (k : String)
    (h : k ∉ m.map Prod.fst) : assocGet m k = none := by
  induction m with
  | nil => rfl
  | cons hd tl ih =>
    obtain ⟨k', v'⟩ := hd
    simp only [List.map_cons, List.mem_cons] at h
    push_neg at h
    rw [assocGet_cons, if_neg (Ne.symm h.1)]
    exact ih h.2

theorem assocGet_isSome_of_mem_keys {α : Type} (m : List (String × α)) (k : String)
    (h : k ∈ m.map Prod.fst) : (assocGet m k).isSome = true := by
  induction m with
  | nil => simp at h
  | cons hd tl ih =>
    obtain ⟨k', v'⟩ := hd
    rw [assocGet_cons]
    by_cases hk : k' = k
    · simp [hk]
    · simp only [List.map_cons, List.mem_cons] at h
      rcases h with h | h
      · exact absurd h.symm hk
      · simpa [hk] using ih h

theorem assocGet_del_self {α : Type} (m : List (String × α)) (k : String) :
    assocGet (assocDel m k) k = none := by
  induction m with
  | nil => rfl
  | cons hd tl ih =>
    obtain ⟨k', v'⟩ := hd
    by_cases hk : k' = k
    · simpa [assocDel, hk] using ih
    · simpa [assocDel, hk, assocGet_cons] using ih

theorem assocGet_del_none {α : Type} (m : List (String × α)) (k k' : String)
    (h : assocGet m k = none) : assocGet (assocDel m k') k = none := by
  induction m with
  | nil => rfl
  | cons hd tl ih =>
    obtain ⟨k₀, v₀⟩ := hd
    rw [assocGet_cons] at h
    by_cases hk : k₀ = k
    · simp [hk] at h
    · simp only [hk, if_neg, not_false_iff] at h
      by_cases hdel : k₀ = k'
      · simpa [assocDel, hdel] using ih h
      · simpa [assocDel, hdel, assocGet_cons, hk] using ih h

/- ===== Composite-key lemmas ===== -/

theorem foldl_priority_filterMap (row : Row) (l : List String) :
    ∀ acc : List String,
      l.foldl
        (fun acc field =>
          match assocGet row field with
          | some v => if isUsable v then acc ++ [jsString v] else acc
          | none => acc) acc
      = acc ++ l.filterMap
          (fun field =>
            match assocGet row field with
            | some v => if isUsable v then some (jsString v) else none
            | none => none) := by
  induction l with
  | nil => intro acc; simp
  | cons f l ih =>
    intro acc
    cases hf : assocGet row f with
    | none =>
      simp only [List.foldl_cons, List.filterMap_cons, hf]
      exact ih acc
    | some v =>
      by_cases hu : isUsable v
      · simp only [List.foldl_cons, List.filterMap_cons, hf, hu, if_true]
        rw [ih]
        simp
      · simp only [List.foldl_cons, List.filterMap_cons, hf, hu, if_false, Bool.false_eq_true]
        exact ih acc

theorem foldl_take3 (l : Row) :
    ∀ acc : List String,
      l.foldl
        (fun acc kv =>
          if isUsable kv.2 && decide (acc.length < 3) then acc ++ [jsString kv.2] else acc) acc
      = acc ++ ((l.filter (fun kv => isUsable kv.2)).map (fun kv => jsString kv.2)).take (3 - acc.length) := by
  induction l with
  | nil => intro acc; simp
  | cons kv l ih =>
    intro acc
    by_cases hu : isUsable kv.2
    · by_cases hl : acc.length < 3
      · have hcond : (isUsable kv.2 && decide (acc.length < 3)) = true := by simp [hu, hl]
        simp only [List.foldl_cons, hcond, if_true]
        rw [ih]
        have h3 : 3 - acc.length = (3 - (acc.length + 1)) + 1 := by omega
        simp [List.filter_cons, hu, h3, List.take_succ_cons, List.append_assoc]
      · have hcond : (isUsable kv.2 && decide (acc.length < 3)) = false := by simp [hl]
        have h3 : 3 - acc.length = 0 := by omega
        simp only [List.foldl_cons, hcond, if_false, Bool.false_eq_true]
        rw [ih]
        simp [List.filter_cons, hu, h3]
    · have hu' : isUsable kv.2 = false := by simpa using hu
      have hcond : (isUsable kv.2 && decide (acc.length < 3)) = false := by simp [hu']
      simp only [List.foldl_cons, hcond, if_false, Bool.false_eq_true]
      rw [ih]
      simp [List.filter_cons, hu']

theorem createCompositeKey_eq_amended (fb : String) (row : Row) :
    createCompositeKey fb row = compositeKeyAmended fb row := by
  unfold createCompositeKey compositeKeyAmended priorityVals firstThreeVals
  rw [foldl_priority_filterMap row fieldPriority [], foldl_take3 row []]
  simp

theorem priorityVals_elem_ne_empty (row : Row) (s : String) (h : s ∈ priorityVals row) :
    s ≠ "" := by
  unfold priorityVals at h
  rw [List.mem_filterMap] at h
  obtain ⟨f, _, hf⟩ := h
  cases hv : assocGet row f with
  | none => rw [hv] at hf; simp at hf
  | some v =>
    rw [hv] at hf
    by_cases hu : isUsable v
    · simp only [hu, if_true, Option.some.injEq] at hf
      rw [← hf]
      exact jsString_ne_empty v hu
    · simp [hu] at hf

theorem firstThreeVals_elem_ne_empty (row : Row) (s : String) (h : s ∈ firstThreeVals row) :
    s ≠ "" := by
  unfold firstThreeVals at h
  have h' := List.mem_of_mem_take h
  rw [List.mem_map] at h'
  obtain ⟨kv, hkv, hs⟩ := h'
  rw [List.mem_filter] at hkv
  rw [← hs]
  exact jsString_ne_empty kv.2 hkv.2

theorem createCompositeKey_fb_irrel (f1 f2 : String) (row : Row)
    (h : ∃ kv ∈ row, isUsable kv.2 = true) :
    createCompositeKey f1 row = createCompositeKey f2 row := by
  rw [createCompositeKey_eq_amended, createCompositeKey_eq_amended]
  unfold compositeKeyAmended
  have hj : joinSep "|" (if (priorityVals row).isEmpty then firstThreeVals row else priorityVals row) ≠ "" := by
    by_cases hp : (priorityVals row).isEmpty
    · simp only [hp, if_true]
      obtain ⟨kv, hm, hu⟩ := h
      have hfl : kv ∈ row.filter (fun kv => isUsable kv.2) := List.mem_filter.mpr ⟨hm, hu⟩
      cases hcc : row.filter (fun kv => isUsable kv.2) with
      | nil => rw [hcc] at hfl; simp at hfl
      | cons a t =>
        have ha : a ∈ row.filter (fun kv => isUsable kv.2) := by rw [hcc]; exact List.mem_cons_self a t
        rw [List.mem_filter] at ha
        have : firstThreeVals row = jsString a.2 :: ((t.map (fun kv => jsString kv.2)).take 2) := by
          unfold firstThreeVals
          rw [hcc, List.map_cons]
          rfl
        rw [this]
        exact joinSep_cons_ne_empty _ _ _ (jsString_ne_empty a.2 ha.2)
    · simp only [hp, if_false, Bool.false_eq_true]
      cases hpp : priorityVals row with
      | nil => rw [hpp] at hp; simp at hp
      | cons a t =>
        exact joinSep_cons_ne_empty _ _ _
          (priorityVals_elem_ne_empty row a (by rw [hpp]; exact List.mem_cons_self a t))
  rw [if_neg hj, if_neg hj]

/- ===== Clean-row and determinism lemmas ===== -/

theorem cleanRowOf_forall_usable (prims : JSPrims) (row : Row) :
    ∀ kv ∈ cleanRowOf prims row, isUsable kv.2 = true := by
  unfold cleanRowOf
  suffices H : ∀ (l : Row) (acc : Row), (∀ kv ∈ acc, isUsable kv.2 = true) →
      ∀ kv ∈ l.foldl
        (fun cleanRow kv =>
          let normalizedValue := normalizeBusinessValue prims kv.2 kv.1
          if isUsable normalizedValue then
            assocSet cleanRow (createBusinessColumnName kv.1) normalizedValue
          else cleanRow) acc,
      isUsable kv.2 = true by
    exact H row [] (by simp)
  intro l
  induction l with
  | nil => intro acc hacc kv hm; exact hacc kv hm
  | cons kv0 l ih =>
    intro acc hacc kv hm
    simp only [List.foldl_cons] at hm
    by_cases hu : isUsable (normalizeBusinessValue prims kv0.2 kv0.1)
    · simp only [hu, if_true] at hm
      refine ih _ ?_ kv hm
      intro kv' hm'
      rcases mem_assocSet _ _ _ _ hm' with h' | h'
      · exact hacc kv' h'
      · rw [h']
        exact hu
    · simp only [hu, if_false, Bool.false_eq_true] at hm
      exact ih acc hacc kv hm

theorem processRow_fb_irrel (prims : JSPrims) (fb1 fb2 : Nat → String) (pk : Option String)
    (st : List (String × Row) × Nat) (row : Row) :
    processRow prims fb1 pk st row = processRow prims fb2 pk st row := by
  unfold processRow
  by_cases hne : (cleanRowOf prims row).isEmpty
  · simp [hne]
  · have hex : ∃ kv ∈ cleanRowOf prims row, isUsable kv.2 = true := by
      cases hcc : cleanRowOf prims row with
      | nil => rw [hcc] at hne; simp at hne
      | cons a t =>
        refine ⟨a, ?_, ?_⟩
        · exact List.mem_cons_self a t
        · exact cleanRowOf_forall_usable prims row a (by rw [hcc]; exact List.mem_cons_self a t)
    have hkey := createCompositeKey_fb_irrel (fb1 st.2) (fb2 st.2) (cleanRowOf prims row) hex
    cases pk with
    | none => simp [hne, hkey]
    | some p =>
      cases hg : assocGet (cleanRowOf prims row) p with
      | none => simp [hne, hg, hkey]
      | some v =>
        by_cases ht : truthy v <;> simp [hne, hg, ht, hkey]

theorem createHorizontalMerge_fb_irrel (prims : JSPrims) (fb1 fb2 : Nat → String)
    (data : List Sheet) :
    createHorizontalMerge prims fb1 data = createHorizontalMerge prims fb2 data := by
  unfold createHorizontalMerge
  have hfun : processRow prims fb1 (detectSmartPrimaryKey data)
      = processRow prims fb2 (detectSmartPrimaryKey data) := by
    funext st row
    exact processRow_fb_irrel prims fb1 fb2 (detectSmartPrimaryKey data) st row
  simp only [hfun]

/- ===== Merge-step lemmas ===== -/

theorem mergeStep_cases (merged : Row) (kv : String × Value) :
    mergeStep merged kv = merged ∨ mergeStep merged kv = assocSet merged kv.1 kv.2 := by
  unfold mergeStep
  repeat' split
  all_goals first
    | exact Or.inl rfl
    | exact Or.inr rfl

theorem mergeStep_get_ne (merged : Row) (kv : String × Value) (k : String) (h : kv.1 ≠ k) :
    assocGet (mergeStep merged kv) k = assocGet merged k := by
  rcases mergeStep_cases merged kv with hc | hc
  · rw [hc]
  · rw [hc]
    exact assocGet_set_ne _ _ _ _ h

theorem mergeStep_get_self (merged : Row) (k0 : String) (v0 : Value) :
    assocGet (mergeStep merged (k0, v0)) k0 = mergeResolveAt (assocGet merged k0) (some v0) := by
  unfold mergeStep mergeResolveAt
  by_cases hu : isUsable v0
  · simp only [hu, if_true]
    cases hm : assocGet merged k0 with
    | none => simp [assocGet_set_self]
    | some m =>
      by_cases hum : isUsable m
      · simp only [hum, Bool.not_true, Bool.false_eq_true, if_false]
        by_cases hmv : m = v0
        · have hnn : ¬ (m ≠ v0) := by simp [hmv]
          rw [if_neg hnn, if_neg hnn, hm, hmv]
        · have hne : m ≠ v0 := hmv
          rw [if_pos hne, if_pos hne]
          cases v0 with
          | vNull => simp [isUsable] at hu
          | vBool b => cases m <;> dsimp only <;> simp [isNumNotNaN, hm]
          | vNum n => cases m <;> dsimp only <;> simp [isNumNotNaN, assocGet_set_self]
          | vNaN => cases m <;> dsimp only <;> simp [isNumNotNaN, hm]
          | vStr s =>
            cases m with
            | vStr ms =>
              dsimp only
              by_cases hlen : s.length > ms.length
              · simp [hlen, assocGet_set_self]
              · simp [hlen, hm]
            | vNull => dsimp only; simp [isNumNotNaN, hm]
            | vBool b => dsimp only; simp [isNumNotNaN, hm]
            | vNum n => dsimp only; simp [isNumNotNaN, hm]
            | vNaN => dsimp only; simp [isNumNotNaN, hm]
      · have hum' : isUsable m = false := by simpa using hum
        simp [hum', assocGet_set_self]
  · have hu' : isUsable v0 = false := by simpa using hu
    simp [hu']

/- ===== Selection-loop lemmas (detectSmartPrimaryKey) ===== -/

theorem selectBest_mono (l : List (String × Nat × Rat)) :
    ∀ bk bs, bs ≤ (selectBest l (bk, bs)).2 := by
  induction l with
  | nil => intro bk bs; simp [selectBest]
  | cons e rest ih =>
    intro bk bs
    obtain ⟨k, s, u⟩ := e
    simp only [selectBest]
    split
    · next hcond => exact le_trans (le_of_lt hcond.1) (ih _ _)
    · exact ih _ _

theorem selectBest_ub (l : List (String × Nat × Rat)) :
    ∀ bk bs k0 s0 u0, (k0, s0, u0) ∈ l → u0 > 7/10 →
      (s0 : Rat) + u0 * 20 ≤ (selectBest l (bk, bs)).2 := by
  induction l with
  | nil => intro bk bs k0 s0 u0 hm; simp at hm
  | cons e rest ih =>
    intro bk bs k0 s0 u0 hm hu
    obtain ⟨k, s, u⟩ := e
    rcases List.mem_cons.mp hm with he | he
    · obtain ⟨hk, hs, hu'⟩ : k0 = k ∧ s0 = s ∧ u0 = u := by simpa [Prod.ext_iff] using he
      subst hk; subst hs; subst hu'
      simp only [selectBest]
      split
      · exact selectBest_mono rest _ _
      · next hc =>
          have hngt : ¬ ((s0 : Rat) + u0 * 20 > bs) := fun hgt => hc ⟨hgt, hu⟩
          exact le_trans (not_lt.mp hngt) (selectBest_mono rest _ _)
    · simp only [selectBest]
      split <;> exact ih _ _ _ _ _ he hu

theorem selectBest_some (l : List (String × Nat × Rat)) :
    ∀ bk bs k, (selectBest l (bk, bs)).1 = some k →
      (bk = some k ∧ (selectBest l (bk, bs)).2 = bs) ∨
      ∃ s u, (k, s, u) ∈ l ∧ u > 7/10 ∧ (selectBest l (bk, bs)).2 = (s : Rat) + u * 20 := by
  induction l with
  | nil =>
    intro bk bs k h
    left
    exact ⟨by simpa [selectBest] using h, by simp [selectBest]⟩
  | cons e rest ih =>
    intro bk bs k h
    obtain ⟨k1, s1, u1⟩ := e
    simp only [selectBest] at h ⊢
    by_cases hc : ((s1 : Rat) + u1 * 20 > bs) ∧ u1 > 7/10
    · rw [if_pos hc] at h ⊢
      rcases ih _ _ _ h with ⟨hbk, hbs⟩ | ⟨s, u, hm, hu, hv⟩
      · have hk1 : k1 = k := by injection hbk
        subst hk1
        right
        exact ⟨s1, u1, List.mem_cons_self _ _, hc.2, hbs⟩
      · right
        exact ⟨s, u, List.mem_cons_of_mem _ hm, hu, hv⟩
    · rw [if_neg hc] at h ⊢
      rcases ih _ _ _ h with ⟨hbk, hbs⟩ | ⟨s, u, hm, hu, hv⟩
      · left
        exact ⟨hbk, hbs⟩
      · right
        exact ⟨s, u, List.mem_cons_of_mem _ hm, hu, hv⟩

/- ===== Levenshtein DP correctness ===== -/

theorem levRec_nil_left (ys : List Char) : levRec [] ys = ys.length := by
  simp [levRec]

theorem levRec_nil_right (xs : List Char) : levRec xs [] = xs.length := by
  cases xs with
  | nil => rw [levRec_nil_left]
  | cons x xs => rw [levRec.eq_2]

theorem levRec_cons_cons (x y : Char) (xs ys : List Char) :
    levRec (x :: xs) (y :: ys) =
      if x = y then levRec xs ys
      else 1 + Nat.min (levRec xs ys) (Nat.min (levRec (x :: xs) ys) (levRec xs (y :: ys))) := by
  rw [levRec.eq_3]

theorem prefixesCh_ne_nil (l : List Char) : prefixesCh l ≠ [] := by
  cases l <;> simp [prefixesCh]

theorem prefixesCh_map_length (l : List Char) :
    (prefixesCh l).map List.length = List.range (l.length + 1) := by
  induction l with
  | nil => rfl
  | cons c cs ih =>
    simp only [prefixesCh, List.map_cons, List.map_map, List.length_cons]
    rw [List.range_succ_eq_map, ← ih, List.map_map]
    rfl

theorem map_prefixesCh_getLast (f : List Char → Nat) (l : List Char) :
    ((prefixesCh l).map f).getLast? = some (f l) := by
  induction l generalizing f with
  | nil => rfl
  | cons c cs ih =>
    have hih := ih (fun q => f (c :: q))
    simp only [prefixesCh, List.map_cons, List.map_map]
    cases hp : (prefixesCh cs).map (f ∘ (c :: ·)) with
    | nil =>
      exact absurd (List.map_eq_nil_iff.mp hp) (prefixesCh_ne_nil cs)
    | cons a rest =>
      rw [List.getLast?_cons_cons, ← hp]
      simpa using hih

theorem windowRow_nil (ys p : List Char) : windowRow ys p [] = [levRec p.reverse ys] := by
  simp [windowRow, prefixesCh]

theorem windowRow_cons (ys p : List Char) (c1 : Char) (s1 : List Char) :
    windowRow ys p (c1 :: s1) = levRec p.reverse ys :: windowRow ys (p ++ [c1]) s1 := by
  simp only [windowRow, prefixesCh, List.map_cons, List.map_map, List.append_nil]
  congr 1
  apply List.map_congr_left
  intro q _
  simp only [Function.comp_apply, List.append_nil]
  rw [List.append_cons]

theorem windowRow_head (ys p s1 : List Char) :
    ∃ t, windowRow ys p s1 = levRec p.reverse ys :: t := by
  cases s1 with
  | nil => exact ⟨[], windowRow_nil ys p⟩
  | cons c1 s1 => exact ⟨_, windowRow_cons ys p c1 s1⟩

theorem levRowAux_spec (c2 : Char) (s1 : List Char) :
    ∀ p ys : List Char,
      levRowAux c2 s1 (windowRow ys p s1) (levRec p.reverse (c2 :: ys))
        = (windowRow (c2 :: ys) p s1).tail := by
  induction s1 with
  | nil =>
    intro p ys
    rw [windowRow_nil, windowRow_nil]
    rfl
  | cons c1 s1 ih =>
    intro p ys
    rw [windowRow_cons ys p c1 s1]
    obtain ⟨t, ht⟩ := windowRow_head ys (p ++ [c1]) s1
    rw [ht, windowRow_cons (c2 :: ys) p c1 s1]
    have hrev : (p ++ [c1]).reverse = c1 :: p.reverse := by simp
    have hcell :
        (if c2 = c1 then levRec p.reverse ys
         else Nat.min (levRec p.reverse ys + 1)
           (Nat.min (levRec p.reverse (c2 :: ys) + 1) (levRec (p ++ [c1]).reverse ys + 1)))
        = levRec (p ++ [c1]).reverse (c2 :: ys) := by
      rw [hrev, levRec_cons_cons]
      by_cases hc : c2 = c1
      · rw [if_pos hc, if_pos hc.symm]
      · rw [if_neg hc, if_neg (fun h => hc h.symm), ← hrev]
        simp only [Nat.min_def]
        split_ifs <;> omega
    show (if c2 = c1 then levRec p.reverse ys
         else Nat.min (levRec p.reverse ys + 1)
           (Nat.min (levRec p.reverse (c2 :: ys) + 1) (levRec (p ++ [c1]).reverse ys + 1)))
        :: levRowAux c2 s1 (levRec (p ++ [c1]).reverse ys :: t) _ = _
    rw [hcell]
    rw [← ht, ih (p ++ [c1]) ys]
    obtain ⟨t', ht'⟩ := windowRow_head (c2 :: ys) (p ++ [c1]) s1
    rw [ht']
    rfl

theorem levFold_spec (s1 : List Char) (cs2 : List Char) :
    ∀ ys : List Char,
      cs2.foldl (fun st c2 => (levRow c2 s1 st.1 (st.2 + 1), st.2 + 1))
        (windowRow ys [] s1, ys.length)
      = (windowRow (cs2.reverse ++ ys) [] s1, (cs2.reverse ++ ys).length) := by
  induction cs2 with
  | nil => intro ys; simp
  | cons c cs ih =>
    intro ys
    simp only [List.foldl_cons]
    have hstep : levRow c s1 (windowRow ys [] s1) (ys.length + 1) = windowRow (c :: ys) [] s1 := by
      unfold levRow
      have hlen : ys.length + 1 = levRec ([] : List Char).reverse (c :: ys) := by
        simp [levRec_nil_left]
      rw [hlen, levRowAux_spec c s1 [] ys]
      obtain ⟨t', ht'⟩ := windowRow_head (c :: ys) [] s1
      rw [ht']
      rfl
    rw [hstep]
    have hres := ih (c :: ys)
    have hlist : (c :: cs).reverse ++ ys = cs.reverse ++ (c :: ys) := by
      rw [List.reverse_cons, List.append_assoc]
      rfl
    rw [hlist]
    exact hres

theorem windowRow_empty_ys (s1 : List Char) : windowRow [] [] s1 = List.range (s1.length + 1) := by
  unfold windowRow
  rw [← prefixesCh_map_length]
  apply List.map_congr_left
  intro q _
  simp [levRec_nil_right]

/-- The DP implementation computes the classic Levenshtein distance (stated
on the reversed character lists, which is how the prefix-table recurrence
reads off as a first-character recursion). -/
theorem levenshteinDistance_eq_levRec (a b : String) :
    levenshteinDistance a b = levRec a.data.reverse b.data.reverse := by
  unfold levenshteinDistance
  have h0 : (List.range (a.data.length + 1), 0)
      = (windowRow [] [] a.data, ([] : List Char).length) := by
    rw [windowRow_empty_ys]
    rfl
  dsimp only
  rw [h0, levFold_spec a.data b.data [], List.append_nil]
  unfold windowRow
  rw [map_prefixesCh_getLast]
  simp

theorem levRec_symm (xs ys : List Char) : levRec xs ys = levRec ys xs := by
  induction xs, ys using levRec.induct with
  | case1 ys => rw [levRec_nil_left, levRec_nil_right]
  | case2 x xs => rw [levRec_nil_left, levRec_nil_right]
  | case3 xs y ys ih =>
    rw [levRec_cons_cons, levRec_cons_cons, if_pos rfl, if_pos rfl, ih]
  | case4 x xs y ys h ih1 ih2 ih3 =>
    rw [levRec_cons_cons, levRec_cons_cons, if_neg h, if_neg (fun hh => h hh.symm),
      ih1, ih2, ih3]
    simp only [Nat.min_def]
    split_ifs <;> omega

theorem levenshteinDistance_symm (a b : String) :
    levenshteinDistance a b = levenshteinDistance b a := by
  rw [levenshteinDistance_eq_levRec, levenshteinDistance_eq_levRec, levRec_symm]

/- ===== Remaining helper lemmas ===== -/

theorem headKeys_all_found (md : List Row) :
    ((headKeys md).all (fun h => md.any (fun e => (assocGet e h).isSome))) = true := by
  cases md with
  | nil => rfl
  | cons e0 rest =>
    rw [List.all_eq_true]
    intro h hm
    rw [List.any_eq_true]
    refine ⟨e0, List.mem_cons_self _ _, ?_⟩
    exact assocGet_isSome_of_mem_keys e0 h (by simpa [headKeys] using hm)

theorem stripTrackingKeys_absent (r : Row) (k : String) (h : k ∈ trackingKeys) :
    assocGet (stripTrackingKeys r) k = none := by
  simp only [trackingKeys, List.mem_cons, List.not_mem_nil, or_false] at h
  unfold stripTrackingKeys
  rcases h with rfl | rfl | rfl | rfl | rfl | rfl | rfl | rfl <;>
    (repeat' first
      | exact assocGet_del_self _ _
      | apply assocGet_del_none)

/- ===== Claim theorems ===== -/

/-- C1: field-level conflict resolution of `mergeEntityAttributes`: for every
key, the merged entity holds the value predicted by `mergeResolveAt` — a
usable value of the new record is adopted when the existing entity lacks the
key or holds null/empty; on differing values the strictly longer string wins
when both are strings, a non-NaN number of the new record wins, and in every
other conflict shape the existing value is kept. -/
theorem C1_mergeEntityAttributes_conflict_resolution
    (existing newRow : Row) (k : String) (h : (newRow.map Prod.fst).Nodup) :
    assocGet (mergeEntityAttributes existing newRow) k
      = mergeResolveAt (assocGet existing k) (assocGet newRow k) := by
  revert h
  induction newRow generalizing existing with
  | nil => intro _; rfl
  | cons kv0 N ih =>
    intro h
    obtain ⟨k0, v0⟩ := kv0
    simp only [List.map_cons, List.nodup_cons] at h
    obtain ⟨hk0, hnd⟩ := h
    show assocGet (mergeEntityAttributes (mergeStep existing (k0, v0)) N) k = _
    by_cases hk : k0 = k
    · subst hk
      rw [ih _ hnd, assocGet_eq_none_of_not_mem_keys N k0 hk0]
      have h1 : mergeResolveAt (assocGet (mergeStep existing (k0, v0)) k0) none
          = assocGet (mergeStep existing (k0, v0)) k0 := rfl
      rw [h1, mergeStep_get_self, assocGet_cons, if_pos rfl]
    · rw [ih _ hnd, mergeStep_get_ne _ _ _ hk, assocGet_cons, if_neg hk]

theorem C1_mergeEntityAttributes_conflict_resolution_witness :
    assocGet (mergeEntityAttributes [("Name", vStr "Jo")] [("Name", vStr "Jonathan")]) "Name"
        = some (vStr "Jonathan")
    ∧ assocGet (mergeEntityAttributes [("Score", vStr "5")] [("Score", vNum 7)]) "Score"
        = some (vNum 7) := by
  constructor
  · have h := C1_mergeEntityAttributes_conflict_resolution
      [("Name", vStr "Jo")] [("Name", vStr "Jonathan")] "Name" (by decide)
    exact h.trans (by decide)
  · have h := C1_mergeEntityAttributes_conflict_resolution
      [("Score", vStr "5")] [("Score", vNum 7)] "Score" (by decide)
    exact h.trans (by decide)

/-- C2 counterexample: for a record with both `Name` and `ID` present, the
composite key is the join of BOTH values, not the first present priority
value alone as the claim states. -/
theorem C2_compositeKey_counterexample :
    createCompositeKey "FB" [("Name", vStr "A"), ("ID", vStr "B")] = "A|B"
    ∧ "A|B" ≠ "A" := by
  exact ⟨by decide, by decide⟩

/-- C2 (amended): the composite key joins with `|` ALL present usable values
of the priority fields Name, ID, Code, Title, Email, Phone in that order;
only when no priority field is present, the first up to 3 usable values in
record iteration order; the fallback key is used exactly when the join is
empty. -/
theorem C2_compositeKey_amended (fallbackKey : String) (row : Row) :
    createCompositeKey fallbackKey row = compositeKeyAmended fallbackKey row :=
  createCompositeKey_eq_amended fallbackKey row

unseal Rat.mul Rat.add Rat.inv Rat.sub in
/-- C3 counterexample: with two sheets whose single columns are `A` and `B`,
the merged output has two entities but the returned headers are only the
first entity's keys — the key `B` of the second entity is missing, so the
headers are not the union across entities. -/
theorem C3_headers_counterexample :
    (createIntelligentFallbackAnalysis prims0 fb0 dataC3).consolidatedHeaders = ["A"]
    ∧ (createIntelligentFallbackAnalysis prims0 fb0 dataC3).mergedData
        = [[("A", vStr "x")], [("B", vStr "y")]]
    ∧ ¬ ("B" ∈ (createIntelligentFallbackAnalysis prims0 fb0 dataC3).consolidatedHeaders) := by
  exact ⟨by decide, by decide, by decide⟩

/-- C3 (amended): the consolidated headers equal the keys of the FIRST
merged entity only (empty when there are no entities), and every header does
occur in some merged entity. -/
theorem C3_headers_amended (prims : JSPrims) (fb : Nat → String) (data : List Sheet) :
    (createIntelligentFallbackAnalysis prims fb data).consolidatedHeaders
        = headKeys (createIntelligentFallbackAnalysis prims fb data).mergedData
    ∧ ((createIntelligentFallbackAnalysis prims fb data).consolidatedHeaders.all
        (fun h => (createIntelligentFallbackAnalysis prims fb data).mergedData.any
          (fun e => (assocGet e h).isSome))) = true := by
  exact ⟨rfl, headKeys_all_found (createHorizontalMerge prims fb data)⟩

unseal Rat.mul Rat.add Rat.inv Rat.sub in
/-- C4 counterexample: on a sheet whose `ID` column has uniqueness 3/4, the
merge identifier chosen by `detectSmartPrimaryKey` is `ID`, but the
`primaryKey` reported by the consolidated fallback result (computed by the
different detector `findBestPrimaryKey`, threshold 0.8) is null — the two
are not the same column. -/
theorem C4_primaryKey_counterexample :
    detectSmartPrimaryKey dataC4 = some "ID"
    ∧ (createIntelligentFallbackAnalysis prims0 fb0 dataC4).primaryKey = none := by
  exact ⟨by decide, by decide⟩

/-- C4 (amended): whenever `detectSmartPrimaryKey` returns a column, that
column is one of its candidates (per canonical column: maximal naming score
id+15/key+12/code+10/name-not-filename+8/reference-or-ref+7/number+5 and
maximal per-source uniqueness over non-empty values), its uniqueness exceeds
0.7, and its combined score `score + uniqueness * 20` is maximal among all
candidates whose uniqueness exceeds 0.7. -/
theorem C4_detectSmartPrimaryKey_amended (data : List Sheet) (k : String)
    (h : detectSmartPrimaryKey data = some k) :
    ∃ s u, (k, s, u) ∈ smartCandidates data ∧ u > 7/10 ∧
      ∀ k' s' u', (k', s', u') ∈ smartCandidates data → u' > 7/10 →
        (s' : Rat) + u' * 20 ≤ (s : Rat) + u * 20 := by
  unfold detectSmartPrimaryKey at h
  rcases selectBest_some (smartCandidates data) none 0 k h with ⟨hbk, _⟩ | ⟨s, u, hm, hu, hv⟩
  · exact absurd hbk (by simp)
  · refine ⟨s, u, hm, hu, ?_⟩
    intro k' s' u' hm' hu'
    have hub := selectBest_ub (smartCandidates data) none 0 k' s' u' hm' hu'
    rw [hv] at hub
    exact hub

unseal Rat.mul Rat.add Rat.inv Rat.sub in
theorem C4_detectSmartPrimaryKey_amended_witness :
    ∃ s u, ("ID", s, u) ∈ smartCandidates dataC4 ∧ u > 7/10 ∧
      ∀ k' s' u', (k', s', u') ∈ smartCandidates dataC4 → u' > 7/10 →
        (s' : Rat) + u' * 20 ≤ (s : Rat) + u * 20 :=
  C4_detectSmartPrimaryKey_amended dataC4 "ID" (by decide)

unseal Rat.mul Rat.add Rat.inv Rat.sub in
/-- C5 counterexample: `calculateSimilarity` does not lower-case its inputs,
so it is not case-invariant: the similarity of "ID" and "id" is 0, not 1.0. -/
theorem C5_similarity_case_counterexample :
    calculateSimilarity "ID" "id" = 0 ∧ (0 : Rat) ≠ 1 := by
  exact ⟨by decide, by decide⟩

/-- C5 (amended): `calculateSimilarity` on its raw (not lower-cased) inputs
returns 1 when both strings appear together in a synonym group, 1 when both
are empty, and otherwise `1 - editDistance(a,b) / max(len a, len b)` where
the edit distance is the classic unit-cost Levenshtein distance (`levRec`
on the reversed character lists, which the DP implementation provably
computes). -/
theorem C5_calculateSimilarity_amended (a b : String) :
    (synonymGroups.any (fun g => g.contains a && g.contains b) = true →
      calculateSimilarity a b = 1)
    ∧ (a = "" → b = "" → calculateSimilarity a b = 1)
    ∧ (synonymGroups.any (fun g => g.contains a && g.contains b) = false →
        Nat.max a.length b.length ≠ 0 →
        calculateSimilarity a b
          = 1 - (levRec a.data.reverse b.data.reverse : Rat) / (Nat.max a.length b.length : Rat)) := by
  refine ⟨?_, ?_, ?_⟩
  · intro h
    unfold calculateSimilarity
    rw [if_pos h]
  · intro ha hb
    subst ha; subst hb
    decide
  · intro hsyn hmax
    unfold calculateSimilarity
    rw [if_neg (by rw [hsyn]; exact Bool.false_ne_true)]
    dsimp only
    by_cases hab : a.length > b.length
    · rw [if_pos hab, if_pos hab]
      have hlen : Nat.max a.length b.length = a.length := Nat.max_eq_left (le_of_lt hab)
      have hne : ¬ (a.length = 0) := by omega
      rw [if_neg hne, levenshteinDistance_eq_levRec, hlen]
      have hL : (a.length : Rat) ≠ 0 := by
        exact_mod_cast hne
      rw [sub_div, div_self hL]
    · rw [if_neg hab, if_neg hab]
      have hlen : Nat.max a.length b.length = b.length := Nat.max_eq_right (Nat.le_of_not_lt hab)
      have hne : ¬ (b.length = 0) := by omega
      rw [if_neg hne, levenshteinDistance_eq_levRec, levRec_symm, hlen]
      have hL : (b.length : Rat) ≠ 0 := by
        exact_mod_cast hne
      rw [sub_div, div_self hL]

theorem C5_calculateSimilarity_amended_witness :
    calculateSimilarity "date" "time" = 1
    ∧ calculateSimilarity "ab" "b"
        = 1 - (levRec ("ab" : String).data.reverse ("b" : String).data.reverse : Rat)
            / (Nat.max ("ab" : String).length ("b" : String).length : Rat) := by
  constructor
  · exact (C5_calculateSimilarity_amended "date" "time").1 (by decide)
  · exact (C5_calculateSimilarity_amended "ab" "b").2.2 (by decide) (by decide)

unseal Rat.mul Rat.add Rat.inv Rat.sub in
/-- C6 counterexample: the synonym rule does NOT fire for the full column
names: `calculateSimilarity "customer name" "client name" = 6/13`, which does
not exceed 0.6, and the columns "Customer Name" and "Client Name" are not
grouped by `findSimilarColumns`. -/
theorem C6_synonym_counterexample :
    calculateSimilarity "customer name" "client name" = 6/13
    ∧ ¬ ((6 : Rat)/13 > 3/5)
    ∧ findSimilarColumns ["Customer Name", "Client Name"] = [] := by
  exact ⟨by decide, by decide, by decide⟩

unseal Rat.mul Rat.add Rat.inv Rat.sub in
/-- C6 (amended): the synonym short-circuit requires each entire lower-cased
name to be a member of one synonym group: the bare names "Customer"/"Client"
get similarity 1 > 0.6 and are grouped, while the full names
"Customer Name"/"Client Name" score 6/13 and are not grouped. -/
theorem C6_synonym_amended :
    calculateSimilarity "customer" "client" = 1
    ∧ ((1 : Rat) > 3/5)
    ∧ findSimilarColumns ["Customer", "Client"]
        = [("Customer", ["Client"]), ("Client", ["Customer"])]
    ∧ ¬ (calculateSimilarity "customer name" "client name" > 3/5) := by
  exact ⟨by decide, by decide, by decide, by decide⟩

/-- C7 counterexample: the strategy field of the consolidated fallback
result is the constant "horizontal_merge", which is not one of the four
enum values merge/union/lookup/aggregate. -/
theorem C7_strategy_counterexample :
    (createIntelligentFallbackAnalysis prims0 fb0 dataC7).consolidationStrategy
        = "horizontal_merge"
    ∧ ¬ ("horizontal_merge" ∈ (["merge", "union", "lookup", "aggregate"] : List String)) := by
  exact ⟨rfl, by decide⟩

/-- C7 (amended): `determineConsolidationStrategy` implements exactly the
claimed rule and always yields one of the four enum values, but the live
fallback result's strategy field is always the constant "horizontal_merge"
(the rule function is not consulted). -/
theorem C7_strategy_amended :
    (∀ (commonColumns : List String) (relationships : List Relationship) (totalSheets : Nat),
      (determineConsolidationStrategy commonColumns relationships totalSheets = "merge"
        ∨ determineConsolidationStrategy commonColumns relationships totalSheets = "lookup"
        ∨ determineConsolidationStrategy commonColumns relationships totalSheets = "union"
        ∨ determineConsolidationStrategy commonColumns relationships totalSheets = "aggregate")
      ∧ (determineConsolidationStrategy commonColumns relationships totalSheets = "merge"
          ↔ (commonColumns.length : Rat) > (totalSheets : Rat) * (1/2))
      ∧ (determineConsolidationStrategy commonColumns relationships totalSheets = "lookup"
          ↔ (¬ ((commonColumns.length : Rat) > (totalSheets : Rat) * (1/2))
             ∧ relationships.length > 0
             ∧ relationships.any (fun r => decide (r.confidence > 7/10)) = true))
      ∧ (determineConsolidationStrategy commonColumns relationships totalSheets = "union"
          ↔ (¬ ((commonColumns.length : Rat) > (totalSheets : Rat) * (1/2))
             ∧ ¬ (relationships.length > 0
                  ∧ relationships.any (fun r => decide (r.confidence > 7/10)) = true)
             ∧ commonColumns.length > 2))
      ∧ (determineConsolidationStrategy commonColumns relationships totalSheets = "aggregate"
          ↔ (¬ ((commonColumns.length : Rat) > (totalSheets : Rat) * (1/2))
             ∧ ¬ (relationships.length > 0
                  ∧ relationships.any (fun r => decide (r.confidence > 7/10)) = true)
             ∧ ¬ (commonColumns.length > 2))))
    ∧ ∀ (prims : JSPrims) (fb : Nat → String) (data : List Sheet),
        (createIntelligentFallbackAnalysis prims fb data).consolidationStrategy
          = "horizontal_merge" := by
  constructor
  · intro commonColumns relationships totalSheets
    unfold determineConsolidationStrategy
    by_cases h1 : (commonColumns.length : Rat) > (totalSheets : Rat) * (1/2)
    · rw [if_pos h1]
      exact ⟨Or.inl rfl,
        ⟨fun _ => h1, fun _ => rfl⟩,
        ⟨fun hx => absurd hx (by decide), fun hr => absurd h1 hr.1⟩,
        ⟨fun hx => absurd hx (by decide), fun hr => absurd h1 hr.1⟩,
        ⟨fun hx => absurd hx (by decide), fun hr => absurd h1 hr.1⟩⟩
    · rw [if_neg h1]
      by_cases h2 : relationships.length > 0
          ∧ relationships.any (fun r => decide (r.confidence > 7/10)) = true
      · rw [if_pos h2]
        exact ⟨Or.inr (Or.inl rfl),
          ⟨fun hx => absurd hx (by decide), fun hc1 => absurd hc1 h1⟩,
          ⟨fun _ => ⟨h1, h2.1, h2.2⟩, fun _ => rfl⟩,
          ⟨fun hx => absurd hx (by decide), fun hr => absurd h2 hr.2.1⟩,
          ⟨fun hx => absurd hx (by decide), fun hr => absurd h2 hr.2.1⟩⟩
      · rw [if_neg h2]
        by_cases h3 : commonColumns.length > 2
        · rw [if_pos h3]
          exact ⟨Or.inr (Or.inr (Or.inl rfl)),
            ⟨fun hx => absurd hx (by decide), fun hc1 => absurd hc1 h1⟩,
            ⟨fun hx => absurd hx (by decide), fun hr => absurd ⟨hr.2.1, hr.2.2⟩ h2⟩,
            ⟨fun _ => ⟨h1, h2, h3⟩, fun _ => rfl⟩,
            ⟨fun hx => absurd hx (by decide), fun hr => absurd h3 hr.2.2⟩⟩
        · rw [if_neg h3]
          exact ⟨Or.inr (Or.inr (Or.inr rfl)),
            ⟨fun hx => absurd hx (by decide), fun hc1 => absurd hc1 h1⟩,
            ⟨fun hx => absurd hx (by decide), fun hr => absurd ⟨hr.2.1, hr.2.2⟩ h2⟩,
            ⟨fun hx => absurd hx (by decide), fun hr => absurd hr.2.2 h3⟩,
            ⟨fun _ => ⟨h1, h2, h3⟩, fun _ => rfl⟩⟩
  · intro prims fb data
    rfl

/-- C8 counterexample: a value that fails date parsing in a date-named
column is returned EXACTLY as given, with its leading/trailing whitespace
intact — not trimmed as the claim states. -/
theorem C8_date_counterexample :
    normalizeBusinessValue prims0 (vStr " n/a ") "Date" = vStr " n/a "
    ∧ vStr " n/a " ≠ vStr (jsTrim " n/a ") := by
  exact ⟨by decide, by decide⟩

/-- C8 (amended): for a usable value in a column whose lower-cased name
contains "date", "time", "created" or "updated", normalization returns the
ISO calendar date `YYYY-MM-DD` of the parsed date on success, and the
ORIGINAL value unchanged (no trimming) on parse failure. -/
theorem C8_date_normalization_amended (prims : JSPrims) (v : Value) (col : String)
    (hdate : (strContains (jsToLower col) "date" || strContains (jsToLower col) "time"
        || strContains (jsToLower col) "created" || strContains (jsToLower col) "updated") = true)
    (hnull : v ≠ vNull) (hempty : v ≠ vStr "") :
    normalizeBusinessValue prims v col
      = match prims.parseDate v with
        | some d => vStr (isoDatePart d)
        | none => v := by
  unfold normalizeBusinessValue
  rw [if_neg (by simp [hnull, hempty]), if_pos hdate]

theorem C8_date_normalization_amended_witness :
    normalizeBusinessValue prims8 (vStr "Jan 5 2024") "Created Date" = vStr "2024-01-05"
    ∧ normalizeBusinessValue prims0 (vStr " nope ") "Update Time" = vStr " nope " := by
  constructor
  · have h := C8_date_normalization_amended prims8 (vStr "Jan 5 2024") "Created Date"
      (by decide) (by decide) (by decide)
    exact h.trans (by decide)
  · have h := C8_date_normalization_amended prims0 (vStr " nope ") "Update Time"
      (by decide) (by decide) (by decide)
    exact h.trans (by decide)

/-- C9: the deterministic fallback pipeline is a pure function of its input:
its result does not depend on the nondeterministic fallback-key source (the
`Date.now`/`Math.random` stream), because rows whose normalized record is
empty are skipped and every kept value stringifies to a non-empty string,
so the composite-key join is never empty and the fallback branch is never
taken. -/
theorem C9_fallback_pipeline_deterministic (prims : JSPrims) (fb1 fb2 : Nat → String)
    (data : List Sheet) :
    createIntelligentFallbackAnalysis prims fb1 data
      = createIntelligentFallbackAnalysis prims fb2 data := by
  unfold createIntelligentFallbackAnalysis
  rw [createHorizontalMerge_fb_irrel prims fb1 fb2 data]

/-- C10 counterexample: the LIVE `validateAndEnhanceAnalysis` accepts the
enrichment's records unchanged — a record carrying the source-tracking key
"Source File" survives validation with the key still present. -/
theorem C10_source_tracking_counterexample :
    (validateAndEnhanceAnalysis prims0 fb0 [] enrichC10).mergedData
        = [[("Source File", vStr "a.xlsx"), ("Name", vStr "Jo")]]
    ∧ ((validateAndEnhanceAnalysis prims0 fb0 [] enrichC10).mergedData.all
        (fun r => (assocGet r "Source File").isNone)) = false := by
  exact ⟨by decide, by decide⟩

/-- C10 (amended): in the VARIANT `validateAndEnhanceAnalysis`, every record
of the validated `mergedData` lacks all eight exactly-matched tracking keys
(Source File, Source_File, Source Sheet, Source_Sheet, Original Row,
Original_Row, Data Quality Score, Duplicate Flag), whichever branch produced
the data. -/
theorem C10_source_tracking_amended (cleanMerged : List Row) (analysis : EnrichmentOutput) :
    ((validateAndEnhanceAnalysisV2 cleanMerged analysis).mergedData.all
      (fun r => trackingKeys.all (fun k => (assocGet r k).isNone))) = true := by
  unfold validateAndEnhanceAnalysisV2
  dsimp only
  by_cases hb :
      (match analysis.mergedData with
        | some l => if l.length > 0 then l else cleanMerged
        | none => cleanMerged).length > 0
  · rw [if_pos hb]
    rw [List.all_eq_true]
    intro r hr
    rw [List.mem_map] at hr
    obtain ⟨r0, _, hr0⟩ := hr
    rw [List.all_eq_true]
    intro k hk
    rw [← hr0]
    simp [stripTrackingKeys_absent r0 k hk]
  · rw [if_neg hb]
    have hnil :
        (match analysis.mergedData with
          | some l => if l.length > 0 then l else cleanMerged
          | none => cleanMerged) = [] := by
      cases hm : (match analysis.mergedData with
          | some l => if l.length > 0 then l else cleanMerged
          | none => cleanMerged) with
      | nil => rfl
      | cons x xs => rw [hm] at hb; simp at hb
    rw [hnil]
    rfl
